import Mathlib

/-!
Verification of the `xsv join` command (src/cmd/join.rs).

The embedding models CSV rows as lists of string fields (byte-for-byte
equality of byte strings becomes string equality).  The `ValueIndex` of the
source — a `HashMap<Vec<ByteString>, Vec<u64>>` of key tuples to row
ordinals together with an ordinal → byte-offset table — is modelled as an
association list of buckets plus direct positional access into the indexed
row list (`seek(i)` followed by reading the record becomes `rows.getD i []`).
Each of the five join algorithms is translated directly from `IoState`'s
methods.
-/

set_option maxHeartbeats 1000000

abbrev Row := List String
abbrev Key := List String
abbrev Buckets := List (Key × List Nat)

/-- Modelled from the spec: the column-selection projection
(`Selection::select` in `types.rs`, which is not part of the core source):
a Selection is an ordered list of resolved 0-based column positions, and a
row is projected to its key tuple by reading the field at each position in
order. -/
def selectRow (sel : List Nat) (row : Row) : Key :=
  sel.map (fun i => row.getD i "")

/-- `HashMap::entry` step of `ValueIndex::new`: a vacant key gets a fresh
one-element bucket; an occupied key has the new ordinal pushed onto the end
of its bucket (insertion order preserved). -/
def insertOrd : Buckets → Key → Nat → Buckets
  | [], k, i => [(k, [i])]
  | (k', v) :: rest, k, i =>
    if k' = k then (k', v ++ [i]) :: rest else (k', v) :: insertOrd rest k i

/-- `HashMap::find`: look up the bucket of ordinals stored under a key. -/
def findBucket : Buckets → Key → Option (List Nat)
  | [], _ => none
  | (k', v) :: rest, k => if k' = k then some v else findBucket rest k

/-- The scan loop of `ValueIndex::new`: for each data row in sequence,
project it through the (normalized) selection and record its ordinal in the
bucket of its key tuple. -/
def buildIndexAux (sel : List Nat) : List Row → Nat → Buckets → Buckets
  | [], _, m => m
  | r :: rs, i, m => buildIndexAux sel rs (i + 1) (insertOrd m (selectRow sel r) i)

def buildIndex (rows : List Row) (sel : List Nat) : Buckets :=
  buildIndexAux sel rows 0 []

/-- `ValueIndex` of the source: the key → ordinal-list mapping plus the
total row count.  The ordinal → byte-offset table and the seek operation
are modelled by positional access into the indexed row list. -/
structure ValueIndex where
  values : Buckets
  num_rows : Nat

/-- `ValueIndex::new`: one pass over the indexed side's data rows. -/
def ValueIndex.new (rows : List Row) (sel : List Nat) : ValueIndex :=
  ⟨buildIndex rows sel, rows.length⟩

/-- The ordinal bucket stored under key `k` (empty when the key is absent). -/
def ordsOf (m : Buckets) (k : Key) : List Nat :=
  (findBucket m k).getD []

/-- The rows of the indexed side whose key tuple equals `k` (the match set
of a driving row with key `k`). -/
def matchesOf (rows : List Row) (sel : List Nat) (k : Key) : List Row :=
  rows.filter (fun b => decide (selectRow sel b = k))

/-- Body of `inner_join`, abstracted over the bucket mapping consulted for
each driving row: seek to each matched ordinal and emit driving fields
followed by the matched row's fields; a driving row whose key is absent
emits nothing. -/
def innerCore (m : Buckets) (rows1 rows2 : List Row) (sel1 : List Nat) : List Row :=
  rows1.flatMap (fun r =>
    match findBucket m (selectRow sel1 r) with
    | none => []
    | some is => is.map (fun i => r ++ rows2.getD i []))

/-- `IoState::inner_join`. -/
def inner_join (rows1 rows2 : List Row) (sel1 sel2 : List Nat) : List Row :=
  innerCore (ValueIndex.new rows2 sel2).values rows1 rows2 sel1

/-- `IoState::get_padding`: two all-empty-field rows sized to the two
headers' field counts. -/
def get_padding (h1 h2 : Row) : Row × Row :=
  (List.replicate h1.length "", List.replicate h2.length "")

/-- Body of `outer_join` after the conditional swap, abstracted over the
bucket mapping: `rows1` is the driving side, `rows2` the indexed side, and
`right` chooses the emission order (matched/padding fields first when
driving with the right input). -/
def outerCore (right : Bool) (m : Buckets) (pad2 : Row)
    (rows1 rows2 : List Row) (sel1 : List Nat) : List Row :=
  rows1.flatMap (fun r =>
    match findBucket m (selectRow sel1 r) with
    | none => [if right then pad2 ++ r else r ++ pad2]
    | some is => is.map (fun i =>
        if right then rows2.getD i [] ++ r else r ++ rows2.getD i []))

/-- `IoState::outer_join`: for `right = true` the readers and selections
are swapped (`mem::swap`) before padding and indexing, so the right input
drives and the left input is indexed; `get_padding` runs after the swap,
so the padding used is sized to the indexed side's header. -/
def outer_join : Bool → Row → Row → List Row → List Row → List Nat → List Nat → List Row
  | false, h1, h2, rows1, rows2, sel1, sel2 =>
    outerCore false (ValueIndex.new rows2 sel2).values (get_padding h1 h2).2 rows1 rows2 sel1
  | true, h1, h2, rows1, rows2, sel1, sel2 =>
    outerCore true (ValueIndex.new rows1 sel1).values (get_padding h2 h1).2 rows2 rows1 sel2

/-- One driving-row step of `full_outer_join`'s first pass: the
accumulator carries the emitted rows and the `rdr2_written` marker
vector. -/
def fullStep (m : Buckets) (rows2 : List Row) (sel1 : List Nat) (pad2 : Row)
    (acc : List Row × List Bool) (r1 : Row) : List Row × List Bool :=
  match findBucket m (selectRow sel1 r1) with
  | none => (acc.1 ++ [r1 ++ pad2], acc.2)
  | some is =>
    is.foldl (fun acc2 i => (acc2.1 ++ [r1 ++ rows2.getD i []], acc2.2.set i true)) acc

/-- Body of `full_outer_join`, abstracted over the bucket mapping: first
pass scans the driving side threading the written markers, second pass
sweeps the marker vector in ordinal order emitting left padding plus each
unwritten indexed row. -/
def fullCore (m : Buckets) (pad1 pad2 : Row) (rows1 rows2 : List Row)
    (sel1 : List Nat) (numRows : Nat) : List Row :=
  let st := rows1.foldl (fullStep m rows2 sel1 pad2) ([], List.replicate numRows false)
  st.1 ++ ((List.range st.2.length).filter (fun i => !(st.2.getD i false))).map
    (fun i => pad1 ++ rows2.getD i [])

/-- `IoState::full_outer_join`. -/
def full_outer_join (h1 h2 : Row) (rows1 rows2 : List Row) (sel1 sel2 : List Nat) : List Row :=
  let vi := ValueIndex.new rows2 sel2
  fullCore vi.values (get_padding h1 h2).1 (get_padding h1 h2).2 rows1 rows2 sel1 vi.num_rows

/-- `IoState::cross_join` over the physical records of the two inputs: the
driving side's records come from `byte_records()` (which yields the first
record too when header interpretation is suppressed), while the right
reader is re-seeked to offset 0 for every driving row and its first
physical record is unconditionally consumed and discarded before emission,
regardless of the no-headers flag. -/
def cross_join (records1 records2 : List Row) (no_headers : Bool) : List Row :=
  (if no_headers then records1 else records1.drop 1).flatMap
    (fun r1 => (records2.drop 1).map (fun r2 => r1 ++ r2))

/-- The per-driving-row output of `full_outer_join`'s first pass. -/
def fullRow (m : Buckets) (rows2 : List Row) (sel1 : List Nat) (pad2 : Row) (r1 : Row) : List Row :=
  match findBucket m (selectRow sel1 r1) with
  | none => [r1 ++ pad2]
  | some is => is.map (fun i => r1 ++ rows2.getD i [])

/-- Setting the `rdr2_written` marker at every ordinal of a bucket. -/
def markList (w : List Bool) (is : List Nat) : List Bool :=
  is.foldl (fun w i => w.set i true) w

/-- All ordinals stored in the index, bucket by bucket. -/
def bucketOrds (m : Buckets) : List Nat :=
  (m.map Prod.snd).flatten

/-- The count-mismatch error text of `Args::get_selections`. -/
def countMismatchMsg (n1 n2 : Nat) : String :=
  "Column selections must have the same number of columns, but found column selections with "
    ++ toString n1 ++ " and " ++ toString n2 ++ " columns."

/-- `Args::get_selections`, over the already-resolved position lists: the
equal-length check performed once, before any data row is processed. -/
def get_selections (select1 select2 : List Nat) : Except String (List Nat × List Nat) :=
  if select1.length ≠ select2.length then
    Except.error (countMismatchMsg select1.length select2.length)
  else
    Except.ok (select1, select2)

/-- The five join operations dispatched by `main`. -/
inductive JoinMode where
  | inner
  | leftOuter
  | rightOuter
  | fullOuter
  | cross
deriving DecidableEq

/-- The pipeline of `main`: `new_io_state` resolves the selections (and
fails on a length mismatch) before any join mode runs; data rows are the
physical records, minus the header when headers are interpreted. -/
def runJoin (mode : JoinMode) (no_headers : Bool) (records1 records2 : List Row)
    (select1 select2 : List Nat) : Except String (List Row) :=
  match get_selections select1 select2 with
  | Except.error e => Except.error e
  | Except.ok (s1, s2) =>
    let h1 := records1.headD []
    let h2 := records2.headD []
    let rows1 := if no_headers then records1 else records1.drop 1
    let rows2 := if no_headers then records2 else records2.drop 1
    Except.ok (match mode with
      | JoinMode.inner => inner_join rows1 rows2 s1 s2
      | JoinMode.leftOuter => outer_join false h1 h2 rows1 rows2 s1 s2
      | JoinMode.rightOuter => outer_join true h1 h2 rows1 rows2 s1 s2
      | JoinMode.fullOuter => full_outer_join h1 h2 rows1 rows2 s1 s2
      | JoinMode.cross => cross_join records1 records2 no_headers)

/-! ### Lemmas about the Value Index -/

theorem findBucket_insertOrd (m : Buckets) (k : Key) (i : Nat) (q : Key) :
    findBucket (insertOrd m k i) q =
      if q = k then some (ordsOf m k ++ [i]) else findBucket m q := by
  induction m with
  | nil =>
    by_cases hq : q = k
    · subst hq
      simp [insertOrd, findBucket, ordsOf]
    · have hkq : ¬ k = q := fun h => hq h.symm
      simp [insertOrd, findBucket, ordsOf, hq, hkq]
  | cons p rest ih =>
    obtain ⟨k0, v⟩ := p
    by_cases h0 : k0 = k
    · subst h0
      by_cases hq : q = k0
      · subst hq
        simp [insertOrd, findBucket, ordsOf]
      · have hkq : ¬ k0 = q := fun h => hq h.symm
        simp [insertOrd, findBucket, hq, hkq]
    · by_cases hq : k0 = q
      · subst hq
        have hqk : ¬ k0 = k := h0
        simp [insertOrd, findBucket, hqk, fun h : k0 = k => h0 h]
      · simp only [insertOrd, if_neg h0, findBucket, if_neg hq]
        rw [ih]
        by_cases hqk : q = k
        · rw [if_pos hqk, if_pos hqk]
          have hords : ordsOf ((k0, v) :: rest) k = ordsOf rest k := by
            simp [ordsOf, findBucket, if_neg h0]
          rw [hords]
        · rw [if_neg hqk, if_neg hqk]

theorem ordsOf_insertOrd (m : Buckets) (k : Key) (i : Nat) (q : Key) :
    ordsOf (insertOrd m k i) q =
      if q = k then ordsOf m k ++ [i] else ordsOf m q := by
  by_cases hq : q = k
  · rw [ordsOf, findBucket_insertOrd, if_pos hq, if_pos hq, Option.getD_some]
  · rw [ordsOf, findBucket_insertOrd, if_neg hq, if_neg hq, ordsOf]

theorem buildIndexAux_snoc (sel : List Nat) (r : Row) (rows : List Row) :
    ∀ (i0 : Nat) (m : Buckets),
      buildIndexAux sel (rows ++ [r]) i0 m
        = insertOrd (buildIndexAux sel rows i0 m) (selectRow sel r) (i0 + rows.length) := by
  induction rows with
  | nil => intro i0 m; simp [buildIndexAux]
  | cons r' rs ih =>
    intro i0 m
    show buildIndexAux sel (rs ++ [r]) (i0 + 1) (insertOrd m (selectRow sel r') i0)
        = insertOrd (buildIndexAux sel rs (i0 + 1) (insertOrd m (selectRow sel r') i0))
            (selectRow sel r) (i0 + (r' :: rs).length)
    rw [ih]
    simp only [List.length_cons]
    congr 1
    omega

theorem buildIndex_snoc (sel : List Nat) (rows : List Row) (r : Row) :
    buildIndex (rows ++ [r]) sel
      = insertOrd (buildIndex rows sel) (selectRow sel r) rows.length := by
  rw [buildIndex, buildIndexAux_snoc, ← buildIndex]
  simp

theorem buildIndex_nil (sel : List Nat) : buildIndex [] sel = [] := rfl

theorem mem_ordsOf_iff (sel : List Nat) (rows : List Row) (k : Key) (i : Nat) :
    i ∈ ordsOf (buildIndex rows sel) k
      ↔ i < rows.length ∧ selectRow sel (rows.getD i []) = k := by
  induction rows using List.reverseRecOn with
  | nil => simp [buildIndex_nil, ordsOf, findBucket]
  | append_singleton rs r ih =>
    rw [buildIndex_snoc, ordsOf_insertOrd]
    simp only [List.length_append, List.length_cons, List.length_nil, Nat.zero_add]
    by_cases hk : k = selectRow sel r
    · subst hk
      rw [if_pos rfl]
      simp only [List.mem_append, List.mem_cons, List.not_mem_nil, or_false, ih]
      constructor
      · rintro (⟨hlt, hsel⟩ | rfl)
        · exact ⟨by omega, by rwa [List.getD_append _ _ _ _ hlt]⟩
        · refine ⟨by omega, ?_⟩
          rw [List.getD_append_right _ _ _ _ (le_refl _), Nat.sub_self]
          rfl
      · rintro ⟨hlt, hsel⟩
        by_cases hi : i < rs.length
        · exact Or.inl ⟨hi, by rwa [List.getD_append _ _ _ _ hi] at hsel⟩
        · exact Or.inr (by omega)
    · rw [if_neg hk, ih]
      constructor
      · rintro ⟨hlt, hsel⟩
        exact ⟨by omega, by rwa [List.getD_append _ _ _ _ hlt]⟩
      · rintro ⟨hlt, hsel⟩
        by_cases hi : i < rs.length
        · exact ⟨hi, by rwa [List.getD_append _ _ _ _ hi] at hsel⟩
        · exfalso
          have hieq : i = rs.length := by omega
          subst hieq
          rw [List.getD_append_right _ _ _ _ (le_refl _), Nat.sub_self] at hsel
          exact hk hsel.symm

theorem mem_ordsOf_lt (sel : List Nat) (rows : List Row) (k : Key) (i : Nat)
    (h : i ∈ ordsOf (buildIndex rows sel) k) : i < rows.length :=
  ((mem_ordsOf_iff sel rows k i).1 h).1

theorem ordsOf_map_getD (sel : List Nat) (rows : List Row) (k : Key) :
    (ordsOf (buildIndex rows sel) k).map (fun i => rows.getD i [])
      = matchesOf rows sel k := by
  induction rows using List.reverseRecOn with
  | nil => simp [buildIndex_nil, ordsOf, findBucket, matchesOf]
  | append_singleton rs r ih =>
    rw [buildIndex_snoc, ordsOf_insertOrd]
    have hmapold : (ordsOf (buildIndex rs sel) k).map (fun i => (rs ++ [r]).getD i [])
        = (ordsOf (buildIndex rs sel) k).map (fun i => rs.getD i []) := by
      refine List.map_congr_left (fun i hi => ?_)
      exact List.getD_append _ _ _ _ (mem_ordsOf_lt sel rs k i hi)
    by_cases hk : k = selectRow sel r
    · subst hk
      rw [if_pos rfl, matchesOf, List.filter_append, List.map_append, hmapold, ih, matchesOf]
      congr 1
      have hpr : decide (selectRow sel r = selectRow sel r) = true := by simp
      simp only [List.filter_cons, hpr, if_pos, List.filter_nil, List.map_cons, List.map_nil]
      rw [List.getD_append_right _ _ _ _ (le_refl _), Nat.sub_self]
      rfl
    · rw [if_neg hk, matchesOf, List.filter_append, hmapold, ih, matchesOf]
      have hfr : List.filter (fun b => decide (selectRow sel b = k)) [r] = [] := by
        simp only [List.filter_cons, List.filter_nil, decide_eq_true_eq]
        rw [if_neg fun h => hk h.symm]
      rw [hfr, List.append_nil]

theorem findBucket_buildIndex_ne_nil (sel : List Nat) :
    ∀ (rows : List Row) (k : Key) (l : List Nat),
      findBucket (buildIndex rows sel) k = some l → l ≠ [] := by
  have aux : ∀ (rows : List Row) (i0 : Nat) (m : Buckets),
      (∀ k l, findBucket m k = some l → l ≠ []) →
      ∀ k l, findBucket (buildIndexAux sel rows i0 m) k = some l → l ≠ [] := by
    intro rows
    induction rows with
    | nil => intro i0 m hm k l h; exact hm k l h
    | cons r rs ih =>
      intro i0 m hm k l h
      refine ih (i0 + 1) _ ?_ k l h
      intro k' l' h'
      rw [findBucket_insertOrd] at h'
      by_cases hq : k' = selectRow sel r
      · rw [if_pos hq] at h'
        cases h'
        simp
      · rw [if_neg hq] at h'
        exact hm k' l' h'
  intro rows k l h
  exact aux rows 0 [] (by intro k' l' h'; simp [findBucket] at h') k l h

theorem findBucket_eq_none_iff (sel : List Nat) (rows : List Row) (k : Key) :
    findBucket (buildIndex rows sel) k = none ↔ matchesOf rows sel k = [] := by
  constructor
  · intro h
    have hords : ordsOf (buildIndex rows sel) k = [] := by simp [ordsOf, h]
    rw [← ordsOf_map_getD sel rows k, hords, List.map_nil]
  · intro h
    cases hfb : findBucket (buildIndex rows sel) k with
    | none => rfl
    | some l =>
      exfalso
      have hords : ordsOf (buildIndex rows sel) k = l := by simp [ordsOf, hfb]
      have hmap := ordsOf_map_getD sel rows k
      rw [hords, h, List.map_eq_nil_iff] at hmap
      exact findBucket_buildIndex_ne_nil sel rows k l hfb hmap

theorem bucket_map (sel2 : List Nat) (rows2 : List Row) (k : Key) (g : Row → Row) :
    (match findBucket (buildIndex rows2 sel2) k with
     | none => ([] : List Row)
     | some is => is.map (fun i => g (rows2.getD i [])))
      = (matchesOf rows2 sel2 k).map g := by
  cases hfb : findBucket (buildIndex rows2 sel2) k with
  | none =>
    have h := (findBucket_eq_none_iff sel2 rows2 k).1 hfb
    simp [h]
  | some l =>
    have hords : ordsOf (buildIndex rows2 sel2) k = l := by simp [ordsOf, hfb]
    have hmap := ordsOf_map_getD sel2 rows2 k
    rw [hords] at hmap
    rw [← hmap, List.map_map]
    rfl

theorem bucket_branch (sel2 : List Nat) (rows2 : List Row) (k : Key) (d : Row) (g : Row → Row) :
    (match findBucket (buildIndex rows2 sel2) k with
     | none => [d]
     | some is => is.map (fun i => g (rows2.getD i [])))
      = (if (matchesOf rows2 sel2 k).isEmpty then [d] else (matchesOf rows2 sel2 k).map g) := by
  cases hfb : findBucket (buildIndex rows2 sel2) k with
  | none =>
    have h := (findBucket_eq_none_iff sel2 rows2 k).1 hfb
    simp [h]
  | some l =>
    have hne := findBucket_buildIndex_ne_nil sel2 rows2 k l hfb
    have hords : ordsOf (buildIndex rows2 sel2) k = l := by simp [ordsOf, hfb]
    have hmap := ordsOf_map_getD sel2 rows2 k
    rw [hords] at hmap
    have hMne : matchesOf rows2 sel2 k ≠ [] := by
      rw [← hmap]
      exact fun h => hne (List.map_eq_nil_iff.1 h)
    rw [if_neg (fun h => hMne (List.isEmpty_iff.1 h))]
    rw [← hmap, List.map_map]
    rfl

theorem insertOrd_keys (m : Buckets) (k : Key) (i : Nat) :
    (insertOrd m k i).map Prod.fst
      = if k ∈ m.map Prod.fst then m.map Prod.fst else m.map Prod.fst ++ [k] := by
  induction m with
  | nil => simp [insertOrd]
  | cons p rest ih =>
    obtain ⟨k0, v⟩ := p
    by_cases h0 : k0 = k
    · subst h0
      simp [insertOrd]
    · simp only [insertOrd, if_neg h0, List.map_cons, ih]
      by_cases hmem : k ∈ rest.map Prod.fst
      · rw [if_pos hmem, if_pos (by simp [hmem])]
      · rw [if_neg hmem,
          if_neg (by simp only [List.mem_cons, not_or]; exact ⟨fun h => h0 h.symm, hmem⟩),
          List.cons_append]

theorem buildIndex_keys_nodup (sel : List Nat) (rows : List Row) :
    ((buildIndex rows sel).map Prod.fst).Nodup := by
  suffices aux : ∀ (rows : List Row) (i0 : Nat) (m : Buckets),
      (List.map Prod.fst m).Nodup → ((buildIndexAux sel rows i0 m).map Prod.fst).Nodup by
    exact aux rows 0 [] (by simp)
  intro rows
  induction rows with
  | nil => intro i0 m hm; exact hm
  | cons r rs ih =>
    intro i0 m hm
    refine ih (i0 + 1) _ ?_
    rw [insertOrd_keys]
    by_cases hmem : selectRow sel r ∈ m.map Prod.fst
    · rw [if_pos hmem]; exact hm
    · rw [if_neg hmem]
      simp [List.nodup_append, hm, hmem]

theorem bucketOrds_insertOrd (m : Buckets) (k : Key) (i : Nat) :
    List.Perm (bucketOrds (insertOrd m k i)) (i :: bucketOrds m) := by
  induction m with
  | nil => simp [insertOrd, bucketOrds]
  | cons p rest ih =>
    obtain ⟨k0, v⟩ := p
    simp only [bucketOrds] at ih ⊢
    by_cases h0 : k0 = k
    · subst h0
      have hins : insertOrd ((k0, v) :: rest) k0 i = (k0, v ++ [i]) :: rest := by
        simp [insertOrd]
      rw [hins]
      simp only [List.map_cons, List.flatten_cons]
      have hre : (v ++ [i]) ++ (rest.map Prod.snd).flatten
          = v ++ i :: (rest.map Prod.snd).flatten := by
        simp [List.append_assoc]
      rw [hre]
      exact List.perm_middle
    · simp only [insertOrd, if_neg h0, List.map_cons, List.flatten_cons]
      exact (List.Perm.append_left v ih).trans List.perm_middle

theorem bucketOrds_buildIndex (sel : List Nat) (rows : List Row) :
    List.Perm (bucketOrds (buildIndex rows sel)) (List.range rows.length) := by
  induction rows using List.reverseRecOn with
  | nil => simp [buildIndex_nil, bucketOrds]
  | append_singleton rs r ih =>
    rw [buildIndex_snoc]
    refine (bucketOrds_insertOrd _ _ _).trans ?_
    simp only [List.length_append, List.length_cons, List.length_nil, Nat.zero_add]
    rw [List.range_succ]
    exact (ih.cons rs.length).trans (List.perm_append_singleton rs.length (List.range rs.length)).symm

theorem findBucket_perm (k : Key) :
    ∀ {m m' : Buckets}, List.Perm m m' → (m.map Prod.fst).Nodup →
      findBucket m k = findBucket m' k := by
  intro m m' h
  induction h with
  | nil => intro _; rfl
  | cons p h ih =>
    intro hnd
    obtain ⟨k0, v⟩ := p
    simp only [findBucket]
    by_cases hq : k0 = k
    · rw [if_pos hq, if_pos hq]
    · rw [if_neg hq, if_neg hq]
      refine ih ?_
      simp only [List.map_cons] at hnd
      exact hnd.of_cons
  | swap x y l =>
    intro hnd
    obtain ⟨k1, v1⟩ := x
    obtain ⟨k2, v2⟩ := y
    simp only [List.map_cons, List.nodup_cons, List.mem_cons] at hnd
    by_cases h1 : k1 = k
    · by_cases h2 : k2 = k
      · exact absurd (Or.inl (h2.trans h1.symm)) hnd.1
      · simp [findBucket, h1, h2]
    · by_cases h2 : k2 = k
      · simp [findBucket, h1, h2]
      · simp [findBucket, h1, h2]
  | trans h1 h2 ih1 ih2 =>
    intro hnd
    refine (ih1 hnd).trans (ih2 ?_)
    exact ((h1.map Prod.fst).nodup_iff).1 hnd

/-! ### Characterizations of the joins -/

theorem inner_join_eq (rows1 rows2 : List Row) (sel1 sel2 : List Nat) :
    inner_join rows1 rows2 sel1 sel2
      = rows1.flatMap (fun a =>
          (matchesOf rows2 sel2 (selectRow sel1 a)).map (fun b => a ++ b)) := by
  simp only [inner_join, innerCore, ValueIndex.new]
  congr 1
  funext r
  exact bucket_map sel2 rows2 (selectRow sel1 r) (fun b => r ++ b)

theorem outer_join_false_eq (h1 h2 : Row) (rows1 rows2 : List Row) (sel1 sel2 : List Nat) :
    outer_join false h1 h2 rows1 rows2 sel1 sel2
      = rows1.flatMap (fun a =>
          if (matchesOf rows2 sel2 (selectRow sel1 a)).isEmpty
          then [a ++ List.replicate h2.length ""]
          else (matchesOf rows2 sel2 (selectRow sel1 a)).map (fun b => a ++ b)) := by
  show outerCore false (ValueIndex.new rows2 sel2).values (get_padding h1 h2).2 rows1 rows2 sel1 = _
  simp only [outerCore, ValueIndex.new, get_padding]
  congr 1
  funext r
  have hb := bucket_branch sel2 rows2 (selectRow sel1 r)
    (r ++ List.replicate h2.length "") (fun b => r ++ b)
  exact hb

theorem outer_join_true_eq (h1 h2 : Row) (rows1 rows2 : List Row) (sel1 sel2 : List Nat) :
    outer_join true h1 h2 rows1 rows2 sel1 sel2
      = rows2.flatMap (fun b =>
          if (matchesOf rows1 sel1 (selectRow sel2 b)).isEmpty
          then [List.replicate h1.length "" ++ b]
          else (matchesOf rows1 sel1 (selectRow sel2 b)).map (fun a => a ++ b)) := by
  show outerCore true (ValueIndex.new rows1 sel1).values (get_padding h2 h1).2 rows2 rows1 sel2 = _
  simp only [outerCore, ValueIndex.new, get_padding]
  congr 1
  funext r
  have hb := bucket_branch sel1 rows1 (selectRow sel2 r)
    (List.replicate h1.length "" ++ r) (fun a => a ++ r)
  exact hb

/-! ### The full outer join's written-marker machinery -/

theorem getD_set_bool (w : List Bool) (i j : Nat) (b : Bool) :
    (w.set i b).getD j false
      = if i = j ∧ i < w.length then b else w.getD j false := by
  rw [List.getD_eq_getElem?_getD, List.getD_eq_getElem?_getD, List.getElem?_set]
  by_cases hij : i = j
  · subst hij
    by_cases hlt : i < w.length
    · simp [hlt]
    · rw [if_pos rfl, if_neg hlt, if_neg (by tauto), List.getElem?_eq_none (by omega)]
  · rw [if_neg hij, if_neg (by tauto)]

theorem getD_replicate_bool (n j : Nat) :
    (List.replicate n false).getD j false = false := by
  rw [List.getD_eq_getElem?_getD, List.getElem?_replicate]
  by_cases h : j < n
  · simp [h]
  · simp [h]

theorem markList_length (is : List Nat) : ∀ (w : List Bool),
    (markList w is).length = w.length := by
  induction is with
  | nil => intro w; rfl
  | cons i is ih =>
    intro w
    show (markList (w.set i true) is).length = w.length
    rw [ih, List.length_set]

theorem markList_getD (is : List Nat) : ∀ (w : List Bool) (j : Nat),
    ((markList w is).getD j false = true
      ↔ (w.getD j false = true ∨ (j ∈ is ∧ j < w.length))) := by
  induction is with
  | nil => intro w j; simp [markList]
  | cons i is ih =>
    intro w j
    show (markList (w.set i true) is).getD j false = true ↔ _
    rw [ih, List.length_set, getD_set_bool]
    by_cases hij : i = j
    · subst hij
      by_cases hlt : i < w.length
      · rw [if_pos ⟨rfl, hlt⟩]
        simp [hlt]
      · rw [if_neg (by tauto)]
        simp only [List.mem_cons]
        constructor
        · rintro (hw | ⟨hm, hl⟩)
          · exact Or.inl hw
          · exact Or.inr ⟨Or.inr hm, hl⟩
        · rintro (hw | ⟨hm, hl⟩)
          · exact Or.inl hw
          · exact absurd hl hlt
    · rw [if_neg (by tauto)]
      simp only [List.mem_cons]
      constructor
      · rintro (hw | ⟨hm, hl⟩)
        · exact Or.inl hw
        · exact Or.inr ⟨Or.inr hm, hl⟩
      · rintro (hw | ⟨hm', hl⟩)
        · exact Or.inl hw
        · rcases hm' with rfl | hm
          · exact absurd rfl hij
          · exact Or.inr ⟨hm, hl⟩

theorem foldl_mark_fst (f : Nat → Row) (is : List Nat) :
    ∀ (acc : List Row × List Bool),
      (is.foldl (fun acc2 i => (acc2.1 ++ [f i], acc2.2.set i true)) acc).1
        = acc.1 ++ is.map f := by
  induction is with
  | nil => intro acc; simp
  | cons i is ih =>
    intro acc
    rw [List.foldl_cons, ih]
    simp

theorem foldl_mark_snd (f : Nat → Row) (is : List Nat) :
    ∀ (acc : List Row × List Bool),
      (is.foldl (fun acc2 i => (acc2.1 ++ [f i], acc2.2.set i true)) acc).2
        = markList acc.2 is := by
  induction is with
  | nil => intro acc; rfl
  | cons i is ih =>
    intro acc
    rw [List.foldl_cons, ih]
    rfl

theorem fullStep_fst (m : Buckets) (rows2 : List Row) (sel1 : List Nat) (pad2 : Row)
    (acc : List Row × List Bool) (r1 : Row) :
    (fullStep m rows2 sel1 pad2 acc r1).1 = acc.1 ++ fullRow m rows2 sel1 pad2 r1 := by
  cases hfb : findBucket m (selectRow sel1 r1) with
  | none => simp [fullStep, fullRow, hfb]
  | some is =>
    simp only [fullStep, fullRow, hfb]
    exact foldl_mark_fst (fun i => r1 ++ rows2.getD i []) is acc

theorem fullStep_snd (m : Buckets) (rows2 : List Row) (sel1 : List Nat) (pad2 : Row)
    (acc : List Row × List Bool) (r1 : Row) :
    (fullStep m rows2 sel1 pad2 acc r1).2
      = markList acc.2 (ordsOf m (selectRow sel1 r1)) := by
  cases hfb : findBucket m (selectRow sel1 r1) with
  | none => simp [fullStep, hfb, ordsOf, markList]
  | some is =>
    simp only [fullStep, hfb]
    rw [foldl_mark_snd]
    simp [ordsOf, hfb]

theorem foldl_fullStep_fst (m : Buckets) (rows2 : List Row) (sel1 : List Nat) (pad2 : Row)
    (rows1 : List Row) :
    ∀ (acc : List Row × List Bool),
      (rows1.foldl (fullStep m rows2 sel1 pad2) acc).1
        = acc.1 ++ rows1.flatMap (fullRow m rows2 sel1 pad2) := by
  induction rows1 with
  | nil => intro acc; simp
  | cons r rs ih =>
    intro acc
    rw [List.foldl_cons, ih, fullStep_fst]
    simp [List.append_assoc]

theorem foldl_fullStep_snd (m : Buckets) (rows2 : List Row) (sel1 : List Nat) (pad2 : Row)
    (rows1 : List Row) :
    ∀ (acc : List Row × List Bool),
      (rows1.foldl (fullStep m rows2 sel1 pad2) acc).2
        = rows1.foldl (fun w r => markList w (ordsOf m (selectRow sel1 r))) acc.2 := by
  induction rows1 with
  | nil => intro acc; rfl
  | cons r rs ih =>
    intro acc
    rw [List.foldl_cons, ih, fullStep_snd, List.foldl_cons]

theorem marksFold_length (m : Buckets) (sel1 : List Nat) (rows1 : List Row) :
    ∀ (w : List Bool),
      (rows1.foldl (fun w r => markList w (ordsOf m (selectRow sel1 r))) w).length
        = w.length := by
  induction rows1 with
  | nil => intro w; rfl
  | cons r rs ih =>
    intro w
    rw [List.foldl_cons, ih, markList_length]

theorem marksFold_getD (m : Buckets) (sel1 : List Nat) (rows1 : List Row) :
    ∀ (w : List Bool) (j : Nat),
      ((rows1.foldl (fun w r => markList w (ordsOf m (selectRow sel1 r))) w).getD j false = true
        ↔ (w.getD j false = true
            ∨ ∃ r ∈ rows1, j ∈ ordsOf m (selectRow sel1 r) ∧ j < w.length)) := by
  induction rows1 with
  | nil => intro w j; simp
  | cons r rs ih =>
    intro w j
    rw [List.foldl_cons, ih]
    simp only [markList_getD, markList_length]
    constructor
    · rintro ((hw | ⟨hm, hl⟩) | ⟨r', hr', hm, hl⟩)
      · exact Or.inl hw
      · exact Or.inr ⟨r, List.mem_cons_self r rs, hm, hl⟩
      · exact Or.inr ⟨r', List.mem_cons_of_mem r hr', hm, hl⟩
    · rintro (hw | ⟨r', hr', hm, hl⟩)
      · exact Or.inl (Or.inl hw)
      · rcases List.mem_cons.1 hr' with rfl | hr''
        · exact Or.inl (Or.inr ⟨hm, hl⟩)
        · exact Or.inr ⟨r', hr'', hm, hl⟩

theorem range_filter_map_getD (q : Row → Bool) (rows : List Row) :
    ((List.range rows.length).filter (fun i => q (rows.getD i []))).map
        (fun i => rows.getD i [])
      = rows.filter q := by
  induction rows using List.reverseRecOn with
  | nil => simp
  | append_singleton rs r ih =>
    simp only [List.length_append, List.length_cons, List.length_nil, Nat.zero_add]
    rw [List.range_succ, List.filter_append, List.map_append]
    have h1 : (List.range rs.length).filter (fun i => q ((rs ++ [r]).getD i []))
        = (List.range rs.length).filter (fun i => q (rs.getD i [])) := by
      refine List.filter_congr (fun i hi => ?_)
      rw [List.getD_append _ _ _ _ (List.mem_range.1 hi)]
    have h2 : ∀ i ∈ (List.range rs.length).filter (fun i => q (rs.getD i [])),
        (rs ++ [r]).getD i [] = rs.getD i [] := by
      intro i hi
      exact List.getD_append _ _ _ _ (List.mem_range.1 (List.mem_of_mem_filter hi))
    rw [h1, List.map_congr_left h2, ih, List.filter_append]
    congr 1
    have hr : (rs ++ [r]).getD rs.length [] = r := by
      rw [List.getD_append_right _ _ _ _ (le_refl _), Nat.sub_self]
      rfl
    simp only [List.filter_cons, List.filter_nil, hr]
    by_cases hq : q r = true
    · simp [hq, hr]
    · simp [hq]

theorem fullRow_eq (sel2 : List Nat) (rows2 : List Row) (sel1 : List Nat) (pad2 : Row)
    (r1 : Row) :
    fullRow (buildIndex rows2 sel2) rows2 sel1 pad2 r1
      = (if (matchesOf rows2 sel2 (selectRow sel1 r1)).isEmpty then [r1 ++ pad2]
         else (matchesOf rows2 sel2 (selectRow sel1 r1)).map (fun b => r1 ++ b)) := by
  unfold fullRow
  exact bucket_branch sel2 rows2 (selectRow sel1 r1) (r1 ++ pad2) (fun b => r1 ++ b)

theorem full_outer_join_eq (h1 h2 : Row) (rows1 rows2 : List Row) (sel1 sel2 : List Nat) :
    full_outer_join h1 h2 rows1 rows2 sel1 sel2
      = rows1.flatMap (fun a =>
          if (matchesOf rows2 sel2 (selectRow sel1 a)).isEmpty
          then [a ++ List.replicate h2.length ""]
          else (matchesOf rows2 sel2 (selectRow sel1 a)).map (fun b => a ++ b))
        ++ (rows2.filter (fun b =>
              !(rows1.any (fun a => decide (selectRow sel1 a = selectRow sel2 b))))).map
            (fun b => List.replicate h1.length "" ++ b) := by
  show fullCore (buildIndex rows2 sel2) (List.replicate h1.length "")
      (List.replicate h2.length "") rows1 rows2 sel1 rows2.length = _
  simp only [fullCore]
  rw [foldl_fullStep_fst, foldl_fullStep_snd]
  have hfirst : rows1.flatMap
      (fullRow (buildIndex rows2 sel2) rows2 sel1 (List.replicate h2.length ""))
      = rows1.flatMap (fun a =>
          if (matchesOf rows2 sel2 (selectRow sel1 a)).isEmpty
          then [a ++ List.replicate h2.length ""]
          else (matchesOf rows2 sel2 (selectRow sel1 a)).map (fun b => a ++ b)) := by
    congr 1
    funext a
    exact fullRow_eq sel2 rows2 sel1 (List.replicate h2.length "") a
  have hlen : (rows1.foldl
      (fun w r => markList w (ordsOf (buildIndex rows2 sel2) (selectRow sel1 r)))
      (([], List.replicate rows2.length false) : List Row × List Bool).2).length
      = rows2.length := by
    rw [marksFold_length]
    simp
  rw [hlen, hfirst]
  congr 1
  have hpred : ∀ i ∈ List.range rows2.length,
      (!((rows1.foldl
          (fun w r => markList w (ordsOf (buildIndex rows2 sel2) (selectRow sel1 r)))
          (List.replicate rows2.length false)).getD i false))
        = (fun b => !(rows1.any
            (fun a => decide (selectRow sel1 a = selectRow sel2 b)))) (rows2.getD i []) := by
    intro i hi
    have hi' := List.mem_range.1 hi
    congr 1
    rw [Bool.eq_iff_iff, marksFold_getD]
    simp only [getD_replicate_bool, List.length_replicate]
    constructor
    · rintro (h | ⟨r, hr, hm, _⟩)
      · exact absurd h (by simp)
      · rw [List.any_eq_true]
        refine ⟨r, hr, ?_⟩
        rw [decide_eq_true_eq]
        exact ((mem_ordsOf_iff sel2 rows2 (selectRow sel1 r) i).1 hm).2.symm
    · intro h
      rw [List.any_eq_true] at h
      obtain ⟨r, hr, hp⟩ := h
      rw [decide_eq_true_eq] at hp
      exact Or.inr ⟨r, hr, (mem_ordsOf_iff sel2 rows2 (selectRow sel1 r) i).2 ⟨hi', hp.symm⟩, hi'⟩
  rw [List.filter_congr hpred]
  have hcomp : (fun i => List.replicate h1.length "" ++ rows2.getD i [])
      = (fun b => List.replicate h1.length "" ++ b) ∘ (fun i => rows2.getD i []) := rfl
  rw [hcomp, ← List.map_map]
  exact congrArg (List.map (fun b => List.replicate h1.length "" ++ b))
    (range_filter_map_getD
      (fun b => !(rows1.any (fun a => decide (selectRow sel1 a = selectRow sel2 b)))) rows2)

/-! ### Claim theorems -/

/-- Claim C1: for inputs A (driving) and B (indexed), the inner join emits,
for each row `a` of A in scan order, exactly one output row per ordinal in
the Value Index bucket for `a`'s key tuple (each output row being `a`'s
fields followed by the matched B row's fields), so the total output row
count equals the sum over rows `a` in A of the size of `a`'s match set in
B; a row of A whose key is absent from the index contributes zero output
rows. -/
theorem claim_c1 (rows1 rows2 : List Row) (sel1 sel2 : List Nat) :
    inner_join rows1 rows2 sel1 sel2
      = rows1.flatMap (fun a =>
          (matchesOf rows2 sel2 (selectRow sel1 a)).map (fun b => a ++ b))
    ∧ (inner_join rows1 rows2 sel1 sel2).length
      = (rows1.map (fun a => (matchesOf rows2 sel2 (selectRow sel1 a)).length)).sum := by
  refine ⟨inner_join_eq rows1 rows2 sel1 sel2, ?_⟩
  rw [inner_join_eq, List.length_flatMap]
  congr 1
  refine List.map_congr_left (fun a ha => ?_)
  simp [Function.comp]

/-- Claim C7: every row emitted by the inner join has the key tuple of its
left-side fields under selection1 byte-for-byte equal to the key tuple of
its right-side fields under selection2. -/
theorem claim_c7 (rows1 rows2 : List Row) (sel1 sel2 : List Nat) (n1 : Nat)
    (hrect : ∀ r ∈ rows1, r.length = n1) :
    ∀ out ∈ inner_join rows1 rows2 sel1 sel2,
      selectRow sel1 (out.take n1) = selectRow sel2 (out.drop n1) := by
  intro out hout
  rw [inner_join_eq, List.mem_flatMap] at hout
  obtain ⟨a, ha, hout⟩ := hout
  rw [List.mem_map] at hout
  obtain ⟨b, hb, rfl⟩ := hout
  rw [matchesOf, List.mem_filter, decide_eq_true_eq] at hb
  obtain ⟨hb2, hkey⟩ := hb
  rw [← hrect a ha, List.take_left, List.drop_left]
  exact hkey.symm

/-- Witness for C7 at a concrete input. -/
theorem claim_c7_witness :
    selectRow [0] ((["1", "x", "1", "p"] : Row).take 2)
      = selectRow [0] ((["1", "x", "1", "p"] : Row).drop 2) :=
  claim_c7 [["1", "x"]] [["1", "p"]] [0] [0] 2 (by decide) ["1", "x", "1", "p"] (by decide)

/-- Claim C4: under a left-outer join every row of A appears in the output
at least once; a row of A with no match appears exactly once, padded with
empty B-side fields whose count is B's header length; a row of A with `k`
matching ordinals appears exactly `k` times, each joined with one matched
B row.  All of this is the first equation; the second conjunct states the
at-least-once property explicitly. -/
theorem claim_c4 (h1 h2 : Row) (rows1 rows2 : List Row) (sel1 sel2 : List Nat) :
    outer_join false h1 h2 rows1 rows2 sel1 sel2
      = rows1.flatMap (fun a =>
          if (matchesOf rows2 sel2 (selectRow sel1 a)).isEmpty
          then [a ++ List.replicate h2.length ""]
          else (matchesOf rows2 sel2 (selectRow sel1 a)).map (fun b => a ++ b))
    ∧ (∀ a ∈ rows1, ∃ x, a ++ x ∈ outer_join false h1 h2 rows1 rows2 sel1 sel2) := by
  refine ⟨outer_join_false_eq h1 h2 rows1 rows2 sel1 sel2, ?_⟩
  intro a ha
  rw [outer_join_false_eq]
  cases hM : matchesOf rows2 sel2 (selectRow sel1 a) with
  | nil =>
    refine ⟨List.replicate h2.length "", ?_⟩
    rw [List.mem_flatMap]
    exact ⟨a, ha, by rw [hM]; simp⟩
  | cons b bs =>
    refine ⟨b, ?_⟩
    rw [List.mem_flatMap]
    refine ⟨a, ha, ?_⟩
    rw [hM]
    simp

/-- Witness for C4 at a concrete input. -/
theorem claim_c4_witness :
    ∃ x, (["2", "y"] : Row) ++ x
      ∈ outer_join false ["a", "b"] ["a", "c"]
          [["1", "x"], ["2", "y"]] [["1", "p"], ["3", "q"]] [0] [0] :=
  (claim_c4 ["a", "b"] ["a", "c"] [["1", "x"], ["2", "y"]] [["1", "p"], ["3", "q"]]
    [0] [0]).2 ["2", "y"] (by decide)

/-- Claim C2: in both outer-join directions every emitted data row places
the left input's fields first and the right input's fields second; in
right-outer mode the driving right row's fields are re-ordered to the
second position at emission time, with the left-side padding (when the
left side has no match) preceding them. -/
theorem claim_c2 (h1 h2 : Row) (rows1 rows2 : List Row) (sel1 sel2 : List Nat) :
    (∀ out ∈ outer_join false h1 h2 rows1 rows2 sel1 sel2,
      ∃ l r, out = l ++ r ∧ l ∈ rows1 ∧ (r ∈ rows2 ∨ r = List.replicate h2.length ""))
    ∧ (∀ out ∈ outer_join true h1 h2 rows1 rows2 sel1 sel2,
      ∃ l r, out = l ++ r ∧ r ∈ rows2 ∧ (l ∈ rows1 ∨ l = List.replicate h1.length "")) := by
  constructor
  · intro out hout
    rw [outer_join_false_eq, List.mem_flatMap] at hout
    obtain ⟨a, ha, hout⟩ := hout
    by_cases hM : (matchesOf rows2 sel2 (selectRow sel1 a)).isEmpty
    · rw [if_pos hM, List.mem_singleton] at hout
      exact ⟨a, List.replicate h2.length "", hout, ha, Or.inr rfl⟩
    · rw [if_neg hM, List.mem_map] at hout
      obtain ⟨b, hb, rfl⟩ := hout
      exact ⟨a, b, rfl, ha, Or.inl (List.mem_of_mem_filter hb)⟩
  · intro out hout
    rw [outer_join_true_eq, List.mem_flatMap] at hout
    obtain ⟨b, hb, hout⟩ := hout
    by_cases hM : (matchesOf rows1 sel1 (selectRow sel2 b)).isEmpty
    · rw [if_pos hM, List.mem_singleton] at hout
      exact ⟨List.replicate h1.length "", b, hout, hb, Or.inr rfl⟩
    · rw [if_neg hM, List.mem_map] at hout
      obtain ⟨a, ha, rfl⟩ := hout
      exact ⟨a, b, rfl, hb, Or.inl (List.mem_of_mem_filter ha)⟩

/-- Witness for C2 at a concrete input (the right-outer padded case). -/
theorem claim_c2_witness :
    ∃ l r, (["", "", "3", "q"] : Row) = l ++ r
      ∧ r ∈ [(["1", "p"] : Row), ["3", "q"]]
      ∧ (l ∈ [(["1", "x"] : Row), ["2", "y"]]
          ∨ l = List.replicate (["a", "b"] : Row).length "") :=
  (claim_c2 ["a", "b"] ["a", "c"] [["1", "x"], ["2", "y"]] [["1", "p"], ["3", "q"]]
    [0] [0]).2 ["", "", "3", "q"] (by decide)

/-- Claim C3: the full-outer join's output contains every row of A at
least once and every row of B at least once; a row of B whose key matches
no row of A appears exactly once, with all A-side fields empty, and all
such unmatched B rows are emitted after every row produced by scanning A,
in B's original order — all captured by the first equation, whose second
summand lists exactly the unmatched B rows, in order, after all A-driven
output. -/
theorem claim_c3 (h1 h2 : Row) (rows1 rows2 : List Row) (sel1 sel2 : List Nat) :
    full_outer_join h1 h2 rows1 rows2 sel1 sel2
      = rows1.flatMap (fun a =>
          if (matchesOf rows2 sel2 (selectRow sel1 a)).isEmpty
          then [a ++ List.replicate h2.length ""]
          else (matchesOf rows2 sel2 (selectRow sel1 a)).map (fun b => a ++ b))
        ++ (rows2.filter (fun b =>
              !(rows1.any (fun a => decide (selectRow sel1 a = selectRow sel2 b))))).map
            (fun b => List.replicate h1.length "" ++ b)
    ∧ (∀ a ∈ rows1, ∃ x, a ++ x ∈ full_outer_join h1 h2 rows1 rows2 sel1 sel2)
    ∧ (∀ b ∈ rows2, ∃ x, x ++ b ∈ full_outer_join h1 h2 rows1 rows2 sel1 sel2) := by
  refine ⟨full_outer_join_eq h1 h2 rows1 rows2 sel1 sel2, ?_, ?_⟩
  · intro a ha
    rw [full_outer_join_eq]
    cases hM : matchesOf rows2 sel2 (selectRow sel1 a) with
    | nil =>
      exact ⟨List.replicate h2.length "",
        List.mem_append_left _ (List.mem_flatMap.2 ⟨a, ha, by rw [hM]; simp⟩)⟩
    | cons b bs =>
      exact ⟨b, List.mem_append_left _ (List.mem_flatMap.2 ⟨a, ha, by rw [hM]; simp⟩)⟩
  · intro b hb
    by_cases hmat : ∃ a ∈ rows1, selectRow sel1 a = selectRow sel2 b
    · obtain ⟨a, ha, hk⟩ := hmat
      refine ⟨a, ?_⟩
      rw [full_outer_join_eq]
      refine List.mem_append_left _ (List.mem_flatMap.2 ⟨a, ha, ?_⟩)
      have hbM : b ∈ matchesOf rows2 sel2 (selectRow sel1 a) := by
        rw [matchesOf, List.mem_filter, decide_eq_true_eq]
        exact ⟨hb, hk.symm⟩
      have hne : ¬ (matchesOf rows2 sel2 (selectRow sel1 a)).isEmpty = true := by
        rw [List.isEmpty_iff]
        intro h
        rw [h] at hbM
        exact List.not_mem_nil b hbM
      rw [if_neg hne]
      exact List.mem_map.2 ⟨b, hbM, rfl⟩
    · refine ⟨List.replicate h1.length "", ?_⟩
      rw [full_outer_join_eq]
      refine List.mem_append_right _ (List.mem_map.2 ⟨b, ?_, rfl⟩)
      rw [List.mem_filter]
      refine ⟨hb, ?_⟩
      have hany : rows1.any (fun a => decide (selectRow sel1 a = selectRow sel2 b)) = false := by
        rw [List.any_eq_false]
        intro a ha hp
        rw [decide_eq_true_eq] at hp
        exact hmat ⟨a, ha, hp⟩
      rw [hany]
      rfl

/-- Witness for C3 at a concrete input (a right row with no match). -/
theorem claim_c3_witness :
    ∃ x, x ++ (["3", "q"] : Row)
      ∈ full_outer_join ["a", "b"] ["a", "c"]
          [["1", "x"], ["2", "y"]] [["1", "p"], ["3", "q"]] [0] [0] :=
  (claim_c3 ["a", "b"] ["a", "c"] [["1", "x"], ["2", "y"]] [["1", "p"], ["3", "q"]]
    [0] [0]).2.2 ["3", "q"] (by decide)

/-- Claim C9: the ordinals stored in the Value Index's buckets are exactly
the ordinals `0 .. num_rows - 1`, each occurring exactly once across all
buckets (a permutation of `range num_rows`), and every ordinal found in a
bucket is strictly below `num_rows` — so marking the visited array of
length `num_rows` and seeking to a bucket ordinal is always in bounds. -/
theorem claim_c9 (rows : List Row) (sel : List Nat) :
    List.Perm (bucketOrds (ValueIndex.new rows sel).values)
        (List.range (ValueIndex.new rows sel).num_rows)
    ∧ ∀ (k : Key) (l : List Nat),
        findBucket (ValueIndex.new rows sel).values k = some l →
        ∀ i ∈ l, i < (ValueIndex.new rows sel).num_rows := by
  constructor
  · exact bucketOrds_buildIndex sel rows
  · intro k l hfb i hi
    have hfb' : findBucket (buildIndex rows sel) k = some l := hfb
    have hmem : i ∈ ordsOf (buildIndex rows sel) k := by
      rw [ordsOf, hfb']
      exact hi
    exact mem_ordsOf_lt sel rows k i hmem

/-- Witness for C9 at a concrete input. -/
theorem claim_c9_witness : (0 : Nat) < (ValueIndex.new [["a"]] [0]).num_rows :=
  (claim_c9 [["a"]] [0]).2 ["a"] [0] (by decide) 0 (by decide)

/-- Claim C8: whenever the two resolved column selections have different
lengths, every run, in every join mode and independently of the input
records and the no-headers flag, fails with the descriptive count-mismatch
error and produces no output rows. -/
theorem claim_c8 (mode : JoinMode) (no_headers : Bool) (records1 records2 : List Row)
    (select1 select2 : List Nat) (h : select1.length ≠ select2.length) :
    runJoin mode no_headers records1 records2 select1 select2
      = Except.error (countMismatchMsg select1.length select2.length) := by
  simp only [runJoin, get_selections, if_pos h]

/-- Witness for C8 at a concrete input. -/
theorem claim_c8_witness :
    runJoin JoinMode.inner false [] [] [0] [0, 1]
      = Except.error (countMismatchMsg ([0] : List Nat).length ([0, 1] : List Nat).length) :=
  claim_c8 JoinMode.inner false [] [] [0] [0, 1] (by decide)

/-- Claim C10: the output of each index-consulting join mode is unchanged
when the Value Index's bucket list is replaced by any permutation of it
(the hash map's iteration order is immaterial: lookups are driven by the
driving-side scan order and each bucket preserves first-appearance order),
so the output is a deterministic function of the inputs, the selections
and the flags. -/
theorem claim_c10 (rows1 rows2 : List Row) (sel1 sel2 : List Nat) (h1 h2 : Row)
    (m m' : Buckets)
    (hm : List.Perm m (buildIndex rows2 sel2))
    (hm' : List.Perm m' (buildIndex rows1 sel1)) :
    innerCore m rows1 rows2 sel1 = inner_join rows1 rows2 sel1 sel2
    ∧ outerCore false m (List.replicate h2.length "") rows1 rows2 sel1
        = outer_join false h1 h2 rows1 rows2 sel1 sel2
    ∧ outerCore true m' (List.replicate h1.length "") rows2 rows1 sel2
        = outer_join true h1 h2 rows1 rows2 sel1 sel2
    ∧ fullCore m (List.replicate h1.length "") (List.replicate h2.length "")
        rows1 rows2 sel1 rows2.length
        = full_outer_join h1 h2 rows1 rows2 sel1 sel2 := by
  have hfb : ∀ k, findBucket m k = findBucket (buildIndex rows2 sel2) k := fun k =>
    findBucket_perm k hm (((hm.map Prod.fst).nodup_iff).2 (buildIndex_keys_nodup sel2 rows2))
  have hfb' : ∀ k, findBucket m' k = findBucket (buildIndex rows1 sel1) k := fun k =>
    findBucket_perm k hm' (((hm'.map Prod.fst).nodup_iff).2 (buildIndex_keys_nodup sel1 rows1))
  refine ⟨?_, ?_, ?_, ?_⟩
  · show innerCore m rows1 rows2 sel1 = innerCore (buildIndex rows2 sel2) rows1 rows2 sel1
    unfold innerCore
    congr 1
    funext r
    rw [hfb]
  · show outerCore false m (List.replicate h2.length "") rows1 rows2 sel1
        = outerCore false (buildIndex rows2 sel2) (List.replicate h2.length "") rows1 rows2 sel1
    unfold outerCore
    congr 1
    funext r
    rw [hfb]
  · show outerCore true m' (List.replicate h1.length "") rows2 rows1 sel2
        = outerCore true (buildIndex rows1 sel1) (List.replicate h1.length "") rows2 rows1 sel2
    unfold outerCore
    congr 1
    funext r
    rw [hfb']
  · show fullCore m (List.replicate h1.length "") (List.replicate h2.length "")
        rows1 rows2 sel1 rows2.length
        = fullCore (buildIndex rows2 sel2) (List.replicate h1.length "")
            (List.replicate h2.length "") rows1 rows2 sel1 rows2.length
    have hstep : fullStep m rows2 sel1 (List.replicate h2.length "")
        = fullStep (buildIndex rows2 sel2) rows2 sel1 (List.replicate h2.length "") := by
      funext acc r1
      unfold fullStep
      rw [hfb]
    simp only [fullCore, hstep]

/-- Witness for C10 at a concrete input: the bucket list reversed. -/
theorem claim_c10_witness :
    innerCore [(["2"], [1]), (["1"], [0])] [["1"], ["2"]] [["1"], ["2"]] [0]
      = inner_join [["1"], ["2"]] [["1"], ["2"]] [0] [0] :=
  (claim_c10 [["1"], ["2"]] [["1"], ["2"]] [0] [0] ["a"] ["a"]
    [(["2"], [1]), (["1"], [0])] [(["2"], [1]), (["1"], [0])]
    (by decide) (by decide)).1

/-- Claim C5 concerns the cross join's row count with the no-headers flag
set: on the one-record inputs `[["1"]]` and `[["2"]]` the code emits zero
rows, not `1 * 1 = 1`, because the first physical record of the right
input is discarded as a header even though header interpretation is
suppressed — contradicting both the claim and the command's own
documentation (`N * M` rows). -/
theorem claim_c5 :
    cross_join [["1"]] [["2"]] true = []
    ∧ ([["1"]] : List Row).length * ([["2"]] : List Row).length = 1 := by
  constructor
  · rfl
  · rfl

/-- Claim C6: after every reset of the right reader, exactly one record is
discarded before any right row is emitted, even in no-headers mode: the
output is exactly each driving record joined with each record of the right
input's tail, the row count is `|records1| * (|records2| - 1)`, and (for
rectangular inputs whose first right record does not recur) no output row
is a driving record followed by the right input's first physical
record. -/
theorem claim_c6 (records1 records2 : List Row) :
    cross_join records1 records2 true
      = records1.flatMap (fun r1 => (records2.drop 1).map (fun r2 => r1 ++ r2))
    ∧ (cross_join records1 records2 true).length
        = records1.length * (records2.length - 1)
    ∧ (∀ L1 L2 : Nat, (∀ r ∈ records1, r.length = L1) → (∀ r ∈ records2, r.length = L2) →
        ∀ hd rest, records2 = hd :: rest → hd ∉ rest →
        ∀ a ∈ records1, a ++ hd ∉ cross_join records1 records2 true) := by
  refine ⟨rfl, ?_, ?_⟩
  · have hgen : ∀ (rs : List Row),
        (cross_join rs records2 true).length = rs.length * (records2.length - 1) := by
      intro rs
      induction rs with
      | nil => simp [cross_join]
      | cons r rs ih =>
        show (((records2.drop 1).map (fun r2 => r ++ r2))
            ++ cross_join rs records2 true).length = _
        rw [List.length_append, List.length_map, List.length_drop, ih, List.length_cons,
          Nat.succ_mul]
        omega
    exact hgen records1
  · intro L1 L2 hL1 hL2 hd rest hrec hnotin a ha hmem
    subst hrec
    have : a ++ hd ∈ records1.flatMap (fun r1 => rest.map (fun r2 => r1 ++ r2)) := hmem
    rw [List.mem_flatMap] at this
    obtain ⟨r1, hr1, hthis⟩ := this
    rw [List.mem_map] at hthis
    obtain ⟨r2, hr2, heq⟩ := hthis
    have hlen : r1.length = a.length := by
      rw [hL1 r1 hr1, hL1 a ha]
    obtain ⟨-, hr2hd⟩ := List.append_inj heq.symm (by rw [hlen])
    exact hnotin (by rw [hr2hd]; exact hr2)

/-- Witness for C6 at a concrete input: the first right record is skipped. -/
theorem claim_c6_witness :
    (["1"] : Row) ++ ["h"] ∉ cross_join [["1"]] [["h"], ["2"]] true :=
  (claim_c6 [["1"]] [["h"], ["2"]]).2.2 1 1 (by decide) (by decide)
    ["h"] [["2"]] rfl (by decide) ["1"] (by decide)
